import Mathlib

/-!
Shallow embedding of the Mares Icon HD backend of libdivecomputer
(`src/mares_iconhd.c`): status codes, the model-name table and layout
selection from `mares_iconhd_get_model` and `mares_iconhd_device_open`,
the framed packet exchange `mares_iconhd_packet`, the bounded-retry
wrapper `mares_iconhd_transfer`, and the backward ring-buffer dive
enumerator `mares_iconhd_device_foreach`.

Embedding conventions:
* Machine bytes are `Nat` values reduced with `% 256` at every decode;
  32-bit unsigned arithmetic is made explicit with `% 2 ^ 32` where the C
  code can wrap.
* The transport and the ring-buffer stream (`dc_rbstream_*`, which lives
  outside the unit under study) are collaborators.  A read through the
  ring stream of `n` bytes ending at scratch-buffer position `p` fills
  positions `[p - n, p)` of the scratch buffer with the linearized ring
  bytes at exactly those positions, so the scratch buffer always agrees
  with the linearized ring content `ring : Nat -> Nat` (position
  `L - 1` is the byte just before the write pointer).  Reads are modelled
  as succeeding; all behaviour of the enumerator after a failed read is
  a verbatim error return and carries no claim content.
* The per-dive callback is modelled as a total function on the emitted
  record descriptor.
-/

namespace MaresIconHD

/-- The status codes of libdivecomputer used by this backend. -/
inductive DCStatus where
  | success
  | cancelled
  | protocol
  | timeout
  | io
  | dataformat
  | invalidargs
  | nomemory
deriving DecidableEq, Repr

/-- Model identifier `MATRIX` (0x0F). -/
def MATRIX : Nat := 0x0F

/-- Model identifier `SMART` (0x000010). -/
def SMART : Nat := 0x000010

/-- Model identifier `SMARTAPNEA` (0x010010). -/
def SMARTAPNEA : Nat := 0x010010

/-- Model identifier `ICONHD` (0x14). -/
def ICONHD : Nat := 0x14

/-- Model identifier `ICONHDNET` (0x15). -/
def ICONHDNET : Nat := 0x15

/-- Model identifier `PUCKPRO` (0x18). -/
def PUCKPRO : Nat := 0x18

/-- Model identifier `NEMOWIDE2` (0x19). -/
def NEMOWIDE2 : Nat := 0x19

/-- Model identifier `PUCK2` (0x1F). -/
def PUCK2 : Nat := 0x1F

/-- Model identifier `QUADAIR` (0x23). -/
def QUADAIR : Nat := 0x23

/-- Model identifier `SMARTAIR` (0x24). -/
def SMARTAIR : Nat := 0x24

/-- Model identifier `QUAD` (0x29). -/
def QUAD : Nat := 0x29

/-- `MAXRETRIES` from the source. -/
def MAXRETRIES : Nat := 4

/-- The `ACK` framing byte (0xAA). -/
def ACK : Nat := 0xAA

/-- The `EOF` framing byte (0xEA); the C source redefines `EOF`. -/
def EOF_BYTE : Nat := 0xEA

/-- Dive mode `FREEDIVE` (3). -/
def FREEDIVE : Nat := 3

/-- `2 ^ 32`, the modulus of the 32-bit unsigned arithmetic of the C code. -/
def U32 : Nat := 2 ^ 32

/-- `mares_iconhd_layout_t`. -/
structure Layout where
  memsize : Nat
  rb_profile_begin : Nat
  rb_profile_end : Nat
deriving DecidableEq, Repr

/-- `mares_iconhd_layout`. -/
def mares_iconhd_layout : Layout := ⟨0x100000, 0x00A000, 0x100000⟩

/-- `mares_iconhdnet_layout`. -/
def mares_iconhdnet_layout : Layout := ⟨0x100000, 0x00E000, 0x100000⟩

/-- `mares_matrix_layout`. -/
def mares_matrix_layout : Layout := ⟨0x40000, 0x0A000, 0x3E000⟩

/-- `mares_nemowide2_layout`. -/
def mares_nemowide2_layout : Layout := ⟨0x40000, 0x0A000, 0x40000⟩

/-- `array_uint16_le`: 16-bit little-endian decode of two bytes. -/
def array_uint16_le (mem : Nat → Nat) (p : Nat) : Nat :=
  mem p % 256 + mem (p + 1) % 256 * 256

/-- `array_uint32_le`: 32-bit little-endian decode of four bytes. -/
def array_uint32_le (mem : Nat → Nat) (p : Nat) : Nat :=
  mem p % 256 + mem (p + 1) % 256 * 256 +
    mem (p + 2) % 256 * 65536 + mem (p + 3) % 256 * 16777216

/-- Pad an ASCII byte sequence with NUL bytes to the 16 bytes that
`memcmp` compares (`sizeof (models[i].name) - 1 = 16`). -/
def padName (s : List Nat) : List Nat :=
  s ++ List.replicate (16 - s.length) 0

/-- The static ordered model table of `mares_iconhd_get_model`, with the
product names as NUL-padded ASCII bytes. -/
def models : List (List Nat × Nat) :=
  [ (padName [77, 97, 116, 114, 105, 120], MATRIX),
    (padName [83, 109, 97, 114, 116], SMART),
    (padName [83, 109, 97, 114, 116, 32, 65, 112, 110, 101, 97], SMARTAPNEA),
    (padName [73, 99, 111, 110, 32, 72, 68], ICONHD),
    (padName [73, 99, 111, 110, 32, 65, 73, 82], ICONHDNET),
    (padName [80, 117, 99, 107, 32, 80, 114, 111], PUCKPRO),
    (padName [78, 101, 109, 111, 32, 87, 105, 100, 101, 32, 50], NEMOWIDE2),
    (padName [80, 117, 99, 107, 32, 50], PUCK2),
    (padName [81, 117, 97, 100, 32, 65, 105, 114], QUADAIR),
    (padName [83, 109, 97, 114, 116, 32, 65, 105, 114], SMARTAIR),
    (padName [81, 117, 97, 100], QUAD) ]

/-- The 16 bytes `version[0x46 .. 0x46+16)` of the version blob that the
model detection compares against the table. -/
def versionName (version : Nat → Nat) : List Nat :=
  (List.range 16).map (fun j => version (0x46 + j) % 256)

/-- `mares_iconhd_get_model`: first 16-byte exact match in the ordered
table wins; no match yields model id 0. -/
def mares_iconhd_get_model (version : Nat → Nat) : Nat :=
  match models.find? (fun m => versionName version = m.1) with
  | some m => m.2
  | none => 0

/-- The layout selected by the `switch` in `mares_iconhd_device_open`. -/
def modelLayout (model : Nat) : Layout :=
  if model = MATRIX then mares_matrix_layout
  else if model = PUCKPRO ∨ model = PUCK2 ∨ model = NEMOWIDE2 ∨
      model = SMART ∨ model = SMARTAPNEA ∨ model = QUAD then
    mares_nemowide2_layout
  else if model = QUADAIR ∨ model = SMARTAIR then mares_iconhdnet_layout
  else if model = ICONHDNET then mares_iconhdnet_layout
  else mares_iconhd_layout

/-- The packet size selected by the `switch` in `mares_iconhd_device_open`. -/
def modelPacketsize (model : Nat) : Nat :=
  if model = MATRIX then 256
  else if model = PUCKPRO ∨ model = PUCK2 ∨ model = NEMOWIDE2 ∨
      model = SMART ∨ model = SMARTAPNEA ∨ model = QUAD then 256
  else if model = QUADAIR ∨ model = SMARTAIR then 256
  else if model = ICONHDNET then 4096
  else 4096

/-- One observable transport interaction of `mares_iconhd_packet`. -/
inductive WireEvent where
  | sendBytes (bytes : List Nat)
  | readBytes (count : Nat)
deriving DecidableEq, Repr

/-- `mares_iconhd_packet`.  The transport is modelled as a byte source
`instream` whose successive values are the bytes delivered by successive
reads; the returned triple is (status, transport interactions performed,
answer bytes stored into the caller buffer). -/
def mares_iconhd_packet (cancelled : Bool) (command : List Nat)
    (instream : Nat → Nat) (asize : Nat) :
    DCStatus × List WireEvent × List Nat :=
  if cancelled then (.cancelled, [], [])
  else
    let ev1 := [WireEvent.sendBytes (command.take 2), WireEvent.readBytes 1]
    let headerByte := instream 0 % 256
    if headerByte ≠ ACK then (.protocol, ev1, [])
    else
      let ev2 := ev1 ++
        (if 2 < command.length then [WireEvent.sendBytes (command.drop 2)] else [])
      let answer := (List.range asize).map (fun i => instream (1 + i) % 256)
      let ev3 := ev2 ++ [WireEvent.readBytes asize, WireEvent.readBytes 1]
      let trailerByte := instream (1 + asize) % 256
      if trailerByte ≠ EOF_BYTE then (.protocol, ev3, answer)
      else (.success, ev3, answer)

/-- The retry loop of `mares_iconhd_transfer`.  `attempts n` is the status
of the packet exchange attempt number `n` (0-based); `budget` is the
number of retries still allowed (`MAXRETRIES - n` at attempt `n`).
Returns (final status, attempts made, purges performed): the input purge
runs exactly once before every retry attempt. -/
def transferLoop (attempts : Nat → DCStatus) : Nat → Nat → DCStatus × Nat × Nat
  | n, budget =>
    let rc := attempts n
    if rc = .success then (.success, n + 1, n)
    else if rc ≠ .protocol ∧ rc ≠ .timeout then (rc, n + 1, n)
    else
      match budget with
      | 0 => (rc, n + 1, n)
      | b + 1 => transferLoop attempts (n + 1) b

/-- `mares_iconhd_transfer`: up to `MAXRETRIES` retries after the first
attempt. -/
def mares_iconhd_transfer (attempts : Nat → DCStatus) : DCStatus × Nat × Nat :=
  transferLoop attempts 0 MAXRETRIES

/-- The first-part header size (the `header` variable of
`mares_iconhd_device_foreach`). -/
def miniHeaderSize (model : Nat) : Nat :=
  if model = ICONHDNET then 0x80
  else if model = QUADAIR then 0x84
  else if model = SMART ∨ model = SMARTAIR then 4
  else if model = SMARTAPNEA then 6
  else 0x5C

/-- Whether the model stores the sample count before the type in the
header (the `model == SMART || model == SMARTAPNEA || model == SMARTAIR`
branch of the field decode). -/
def smartFamily (model : Nat) : Prop :=
  model = SMART ∨ model = SMARTAPNEA ∨ model = SMARTAIR

instance (model : Nat) : Decidable (smartFamily model) := by
  unfold smartFamily; infer_instance

/-- The provisional `type` field decoded from the first-part header
ending at `offset`. -/
def decodedType (model : Nat) (mem : Nat → Nat) (offset : Nat) : Nat :=
  if smartFamily model then
    array_uint16_le mem (offset - miniHeaderSize model + 2)
  else
    array_uint16_le mem (offset - miniHeaderSize model + 0)

/-- The provisional sample-count field decoded from the first-part header
ending at `offset`. -/
def decodedSamples (model : Nat) (mem : Nat → Nat) (offset : Nat) : Nat :=
  if smartFamily model then
    array_uint16_le mem (offset - miniHeaderSize model + 0)
  else
    array_uint16_le mem (offset - miniHeaderSize model + 2)

/-- The `headersize`, `samplesize` and `fingerprint` values of one loop
iteration. -/
structure DiveFormat where
  headersize : Nat
  samplesize : Nat
  fingerprint : Nat
deriving DecidableEq, Repr

/-- The model- and mode-dependent header size, sample size and
fingerprint offset lookup of `mares_iconhd_device_foreach`. -/
def diveFormat (model mode : Nat) : DiveFormat :=
  if model = ICONHDNET then ⟨0x80, 12, 6⟩
  else if model = QUADAIR then ⟨0x84, 12, 6⟩
  else if model = SMART then
    if mode = FREEDIVE then ⟨0x2E, 6, 0x20⟩ else ⟨0x5C, 8, 2⟩
  else if model = SMARTAPNEA then ⟨0x50, 14, 0x40⟩
  else if model = SMARTAIR then ⟨0x84, 12, 2⟩
  else ⟨0x5C, 8, 6⟩

/-- The total record length `nbytes` computed by one loop iteration, in
the 32-bit unsigned arithmetic of the C code.  For `SMARTAPNEA` the
`settings` and `divetime` fields are read from fixed offsets inside the
just-read header. -/
def computeNbytes (model : Nat) (mem : Nat → Nat) (offset mode nsamples : Nat) : Nat :=
  let fmt := diveFormat model mode
  let base := 4 + fmt.headersize + nsamples * fmt.samplesize
  if model = ICONHDNET ∨ model = QUADAIR ∨ model = SMARTAIR then
    (base + nsamples / 4 * 8) % U32
  else if model = SMARTAPNEA then
    let settings := array_uint16_le mem (offset - fmt.headersize + 0x1C)
    let divetime := array_uint32_le mem (offset - fmt.headersize + 0x24)
    let samplerate := 2 ^ (settings / 512 % 4)
    (base + divetime * samplerate * 2) % U32
  else base % U32

/-- The record-length formula exactly as the specification states it, in
unbounded arithmetic (no 32-bit wrap); the reference for claim C2. -/
def specRecordLength (model : Nat) (mem : Nat → Nat) (offset mode nsamples : Nat) : Nat :=
  let fmt := diveFormat model mode
  4 + fmt.headersize + nsamples * fmt.samplesize +
    (if model = ICONHDNET ∨ model = QUADAIR ∨ model = SMARTAIR then
      nsamples / 4 * 8
    else if model = SMARTAPNEA then
      let settings := array_uint16_le mem (offset - fmt.headersize + 0x1C)
      let divetime := array_uint32_le mem (offset - fmt.headersize + 0x24)
      let samplerate := 2 ^ (settings / 512 % 4)
      divetime * samplerate * 2
    else 0)

/-- One record as handed to the per-dive callback: `offset` is the start
of the record in the scratch buffer (the position of the 4-byte length
prefix), `length` its self-declared total length, and `fpOff` the
scratch-buffer position of the 10-byte fingerprint slice. -/
structure Dive where
  offset : Nat
  length : Nat
  fpOff : Nat
deriving DecidableEq, Repr

/-- The 10-byte fingerprint slice starting at scratch-buffer position `p`. -/
def fpSlice (mem : Nat → Nat) (p : Nat) : List Nat :=
  (List.range 10).map (fun i => mem (p + i) % 256)

/-- The structural outcome of one iteration of the enumerator loop,
before the fingerprint comparison and the callback. -/
inductive CoreResult where
  | sentinel
  | shortHeader
  | truncated
  | mismatch (computed stored : Nat)
  | ok (d : Dive) (offset' : Nat)
deriving DecidableEq, Repr

/-- Steps 1-10 of one iteration of the `mares_iconhd_device_foreach`
loop at scratch offset `offset`: decode the provisional fields, stop on
the 16-bit sentinel, look up the dive format, check the remaining space,
compute `nbytes`, move to the start of the record and re-check the
stored length field.  `ok d offset'` means the record `d` was
reconstructed and the loop would continue at `offset'`. -/
def iterCore (model : Nat) (mem : Nat → Nat) (offset : Nat) : CoreResult :=
  let ty := decodedType model mem offset
  let nsamples := decodedSamples model mem offset
  if nsamples = 0xFFFF ∨ ty = 0xFFFF then .sentinel
  else
    let mode := ty % 4
    let fmt := diveFormat model mode
    if offset < fmt.headersize then .shortHeader
    else
      let nbytes := computeNbytes model mem offset mode nsamples
      if offset < nbytes then .truncated
      else
        let offset' := offset - nbytes
        let length := array_uint32_le mem offset'
        if length ≠ nbytes then .mismatch nbytes length
        else
          .ok ⟨offset', length, offset' + length - fmt.headersize + fmt.fingerprint⟩ offset'

/-- Why the enumerator loop stopped. -/
inductive StopReason where
  | ringStart
  | sentinel
  | shortHeader
  | truncated
  | mismatch (computed stored : Nat)
  | fpMatch (d : Dive)
  | cbStop (d : Dive)
deriving DecidableEq, Repr

/-- The `while (offset >= header + 4)` loop of
`mares_iconhd_device_foreach`, with explicit fuel (`none` means the fuel
ran out before the loop terminated).  Returns the dives passed to the
callback, in emission order, together with the stop reason. -/
def mares_iconhd_foreach_loop (model : Nat) (fp : List Nat) (mem : Nat → Nat)
    (cb : Dive → Bool) : Nat → Nat → Option (List Dive × StopReason)
  | 0, _ => none
  | fuel + 1, offset =>
    if offset < miniHeaderSize model + 4 then some ([], .ringStart)
    else
      match iterCore model mem offset with
      | .sentinel => some ([], .sentinel)
      | .shortHeader => some ([], .shortHeader)
      | .truncated => some ([], .truncated)
      | .mismatch c s => some ([], .mismatch c s)
      | .ok d offset' =>
        if fpSlice mem d.fpOff = fp then some ([], .fpMatch d)
        else if cb d then
          (mares_iconhd_foreach_loop model fp mem cb fuel offset').map
            (fun r => (d :: r.1, r.2))
        else some ([d], .cbStop d)

/-- The full sequence of structurally valid records of the backward
walk, ignoring the fingerprint boundary and the callback: the reference
record list for claim C1 (which records exist, newest first). -/
def ringWalk (model : Nat) (mem : Nat → Nat) : Nat → Nat → Option (List Dive)
  | 0, _ => none
  | fuel + 1, offset =>
    if offset < miniHeaderSize model + 4 then some []
    else
      match iterCore model mem offset with
      | .ok d offset' => (ringWalk model mem fuel offset').map (d :: ·)
      | _ => some []

/-- The all-ones 32-bit ring-pointer sentinel. -/
def RING_SENTINEL : Nat := 0xFFFFFFFF

/-- `mares_iconhd_device_foreach` from the ring-pointer reads onward.
`devmem` is the device address space from which the two ring-pointer
candidates are read (addresses 0x2001 and then, only if the first is the
sentinel, 0x3001 - the loop over `config[]` stops at the first
non-sentinel value).  `ring` is the linearized ring content delivered by
the ring stream (spec-modelled collaborator, see the module docstring).
Returns `none` when the fuel ran out. -/
def mares_iconhd_device_foreach (layout : Layout) (model : Nat) (fp : List Nat)
    (devmem : Nat → Nat) (ring : Nat → Nat) (cb : Dive → Bool) (fuel : Nat) :
    Option (DCStatus × List Dive) :=
  let pointer1 := array_uint32_le devmem 0x2001
  let pointer2 := array_uint32_le devmem 0x3001
  let eop := if pointer1 ≠ RING_SENTINEL then pointer1 else pointer2
  if eop < layout.rb_profile_begin ∨ layout.rb_profile_end ≤ eop then
    if eop = RING_SENTINEL then some (.success, [])
    else some (.dataformat, [])
  else
    (mares_iconhd_foreach_loop model fp ring cb fuel
        (layout.rb_profile_end - layout.rb_profile_begin)).map
      (fun r => (.success, r.1))

/-- The scratch-buffer byte ranges (start, length) accessed by one
iteration of the enumerator loop at `offset`, in program order: the
first-part header read, the second-part header read, the remainder-of-
record read (whose length `nbytes - headersize` is computed in 32-bit
unsigned arithmetic), the 4-byte stored-length re-read, the 10-byte
fingerprint slice, and the record slice handed to the callback. -/
def iterReads (model : Nat) (mem : Nat → Nat) (offset : Nat) : List (Nat × Nat) :=
  let header := miniHeaderSize model
  let first := (offset - header, header)
  let ty := decodedType model mem offset
  let nsamples := decodedSamples model mem offset
  if nsamples = 0xFFFF ∨ ty = 0xFFFF then [first]
  else
    let mode := ty % 4
    let fmt := diveFormat model mode
    if offset < fmt.headersize then [first]
    else
      let second := (offset - fmt.headersize, fmt.headersize - header)
      let nbytes := computeNbytes model mem offset mode nsamples
      if offset < nbytes then [first, second]
      else
        let third := (offset - nbytes, (nbytes + U32 - fmt.headersize) % U32)
        let offset' := offset - nbytes
        let length := array_uint32_le mem offset'
        if length ≠ nbytes then [first, second, third, (offset', 4)]
        else
          [first, second, third, (offset', 4),
           (offset' + length - fmt.headersize + fmt.fingerprint, 10),
           (offset', length)]

/-- The states (scratch offset, dives emitted so far) reachable by the
enumerator loop from its initial state (offset = ring length, nothing
emitted). -/
inductive Reaches (model : Nat) (fp : List Nat) (mem : Nat → Nat)
    (cb : Dive → Bool) (L : Nat) : Nat → List Dive → Prop where
  | start : Reaches model fp mem cb L L []
  | step {offset offset' : Nat} {ds : List Dive} {d : Dive} :
      Reaches model fp mem cb L offset ds →
      miniHeaderSize model + 4 ≤ offset →
      iterCore model mem offset = .ok d offset' →
      fpSlice mem d.fpOff ≠ fp →
      cb d = true →
      Reaches model fp mem cb L offset' (ds ++ [d])

/-! ### Concrete fixtures used by witnesses and counterexamples -/

/-- The all-zero 10-byte fingerprint (the cleared state of
`device->fingerprint`). -/
def fpZero : List Nat := List.replicate 10 0

/-- A callback that accepts every dive. -/
def cbTrue : Dive → Bool := fun _ => true

/-- Ring content for the Matrix layout (ring length 0x34000 = 212992)
holding one valid 96-byte record ending at the newest end, whose
fingerprint slice differs from `fpZero`, followed by bytes whose stored
length field does not validate. -/
def memA : Nat → Nat := fun p =>
  if p = 212896 then 96 else if p = 212906 then 1 else 0

/-- Device memory whose 32-bit little-endian field at 0x2001 is 0xA000
(the `rb_profile_begin` of the Matrix layout). -/
def devmemA : Nat → Nat := fun p => if p = 0x2002 then 0xA0 else 0

/-- Ring content for the Smart Apnea (nemowide2) layout (ring length
0x36000 = 221184) holding one record whose `divetime` field is
0x80000008, so that `divetime * samplerate * 2` overflows 32 bits and
the wrapped record length is 100. -/
def memC : Nat → Nat := fun p =>
  if p = 221084 then 100
  else if p = 221140 then 8
  else if p = 221143 then 0x80
  else if p = 221168 then 1
  else 0

/-- Ring content for the Smart Apnea (nemowide2) layout whose `divetime`
field is 0x7FFFFFD6, making the wrapped record length exactly 0, so the
iteration makes no progress and re-reads the length field past the end
of the scratch buffer. -/
def memD : Nat → Nat := fun p =>
  if p = 221140 then 214 else if p = 221141 then 255
  else if p = 221142 then 255 else if p = 221143 then 127 else 0

/-- Fully erased memory (every byte 0xFF). -/
def memFF : Nat → Nat := fun _ => 0xFF

/-- All-zero memory. -/
def memZero : Nat → Nat := fun _ => 0

/-- A version blob whose 16-byte name field is `Puck 2`, NUL-padded. -/
def versionPuck2 : Nat → Nat := fun p =>
  if p = 0x46 then 80 else if p = 0x47 then 117 else if p = 0x48 then 99
  else if p = 0x49 then 107 else if p = 0x4A then 32 else if p = 0x4B then 50
  else 0

/-- A byte source whose header byte is ACK and whose trailer byte (after
a 1-byte answer) is the EOF marker. -/
def instreamW : Nat → Nat := fun i =>
  if i = 0 then 0xAA else if i = 2 then 0xEA else 7

/-- An attempt sequence whose first packet exchange fails with a framing
error and whose second succeeds. -/
def attemptsW : Nat → DCStatus := fun k => if k = 0 then .protocol else .success

/-! ### Helper lemmas -/

/-- Full characterization of the retry loop: it stops at the first
attempt that is neither `protocol` nor `timeout`, or when the budget is
exhausted, returning that status; the purge count equals the retry
count. -/
theorem transferLoop_spec (attempts : Nat → DCStatus) (budget : Nat) :
    ∀ n, ∃ m, n ≤ m ∧ m ≤ n + budget ∧
      transferLoop attempts n budget = (attempts m, m + 1, m) ∧
      (∀ k, n ≤ k → k < m → attempts k = .protocol ∨ attempts k = .timeout) ∧
      (m < n + budget → ¬(attempts m = .protocol ∨ attempts m = .timeout)) := by
  induction budget with
  | zero =>
    intro n
    refine ⟨n, le_refl n, by omega, ?_, fun k hk1 hk2 => absurd hk2 (by omega),
      fun h => absurd h (by omega)⟩
    simp only [transferLoop]
    split_ifs with h1 h2
    · rw [h1]
    · rfl
    · rfl
  | succ b ih =>
    intro n
    by_cases h1 : attempts n = .success
    · refine ⟨n, le_refl n, by omega, ?_, fun k hk1 hk2 => absurd hk2 (by omega), ?_⟩
      · simp only [transferLoop]
        rw [if_pos h1, h1]
      · intro _ hr
        rcases hr with hr | hr <;> rw [h1] at hr <;> cases hr
    · by_cases h2 : attempts n ≠ .protocol ∧ attempts n ≠ .timeout
      · refine ⟨n, le_refl n, by omega, ?_, fun k hk1 hk2 => absurd hk2 (by omega), ?_⟩
        · simp only [transferLoop]
          rw [if_neg h1, if_pos h2]
        · intro _ hr
          rcases hr with hr | hr
          · exact h2.1 hr
          · exact h2.2 hr
      · obtain ⟨m, hm1, hm2, hm3, hm4, hm5⟩ := ih (n + 1)
        refine ⟨m, by omega, by omega, ?_, ?_, ?_⟩
        · simp only [transferLoop]
          rw [if_neg h1, if_neg h2]
          exact hm3
        · intro k hk1 hk2
          rcases Nat.eq_or_lt_of_le hk1 with hk | hk
          · subst hk
            rcases not_and_or.mp h2 with h | h
            · exact Or.inl (not_not.mp h)
            · exact Or.inr (not_not.mp h)
          · exact hm4 k hk hk2
        · intro h
          exact hm5 (by omega)

/-- `find?` returns the element at the first index whose predicate
holds. -/
theorem find_first_of_earlier_false {α : Type} (p : α → Bool) :
    ∀ (l : List α) (i : Nat) (h : i < l.length),
      p (l.get ⟨i, h⟩) = true →
      (∀ j (hj : j < i), p (l.get ⟨j, Nat.lt_trans hj h⟩) = false) →
      l.find? p = some (l.get ⟨i, h⟩) := by
  intro l
  induction l with
  | nil => intro i h; exact absurd h (by simp)
  | cons a t ih =>
    intro i h hp hearlier
    cases i with
    | zero =>
      simp only [List.get] at hp ⊢
      rw [List.find?_cons_of_pos _ hp]
    | succ i =>
      have ha : p a = false := hearlier 0 (Nat.succ_pos i)
      rw [List.find?_cons_of_neg _ (by simp [ha])]
      exact ih i (by simpa using h) hp
        (fun j hj => hearlier (j + 1) (Nat.succ_lt_succ hj))
/-- A 16-bit little-endian decode is below 0x10000. -/
theorem array_uint16_le_lt (mem : Nat → Nat) (p : Nat) :
    array_uint16_le mem p < 0x10000 := by
  unfold array_uint16_le
  have h1 : mem p % 256 < 256 := Nat.mod_lt _ (by norm_num)
  have h2 : mem (p + 1) % 256 < 256 := Nat.mod_lt _ (by norm_num)
  omega

/-- The computed `nbytes` is the specification formula reduced modulo
`2 ^ 32`. -/
theorem computeNbytes_eq_spec (model : Nat) (mem : Nat → Nat)
    (offset mode nsamples : Nat) :
    computeNbytes model mem offset mode nsamples =
      specRecordLength model mem offset mode nsamples % U32 := by
  unfold computeNbytes specRecordLength
  split_ifs <;> simp [Nat.add_assoc]

/-- The specification record-length formula is at least
`4 + headersize`. -/
theorem spec_ge_headersize (model : Nat) (mem : Nat → Nat)
    (offset mode nsamples : Nat) :
    4 + (diveFormat model mode).headersize ≤
      specRecordLength model mem offset mode nsamples := by
  simp only [specRecordLength]
  split_ifs <;> omega

/-- In the dive-format lookup table, the full header size dominates the
first-part header size, and the fingerprint slice fits inside the
header, for every model and mode. -/
theorem diveFormat_bounds (model mode : Nat) :
    miniHeaderSize model ≤ (diveFormat model mode).headersize ∧
    (diveFormat model mode).fingerprint + 10 ≤ (diveFormat model mode).headersize := by
  unfold miniHeaderSize diveFormat
  simp only [MATRIX, SMART, SMARTAPNEA, ICONHD, ICONHDNET, PUCKPRO, NEMOWIDE2,
    PUCK2, QUADAIR, SMARTAIR, QUAD, FREEDIVE]
  split_ifs <;> simp_all <;> omega

/-- The first-part header size is at most 0x84. -/
theorem miniHeaderSize_le (model : Nat) : miniHeaderSize model ≤ 0x84 := by
  unfold miniHeaderSize
  split_ifs <;> omega

/-- Inversion of a successful loop iteration: the facts recorded by
`iterCore` returning `ok`. -/
theorem iterCore_ok_inv {model : Nat} {mem : Nat → Nat} {offset : Nat}
    {d : Dive} {offset' : Nat}
    (h : iterCore model mem offset = .ok d offset') :
    decodedSamples model mem offset ≠ 0xFFFF ∧
    decodedType model mem offset ≠ 0xFFFF ∧
    (diveFormat model (decodedType model mem offset % 4)).headersize ≤ offset ∧
    d.length = computeNbytes model mem offset (decodedType model mem offset % 4)
      (decodedSamples model mem offset) ∧
    d.length ≤ offset ∧
    d.offset = offset - d.length ∧
    offset' = offset - d.length ∧
    array_uint32_le mem (offset - d.length) = d.length ∧
    d.fpOff = offset - (diveFormat model (decodedType model mem offset % 4)).headersize +
      (diveFormat model (decodedType model mem offset % 4)).fingerprint := by
  simp only [iterCore] at h
  split_ifs at h with h1 h2 h3 h4
  all_goals try exact CoreResult.noConfusion h
  rw [CoreResult.ok.injEq] at h
  obtain ⟨hd, ho⟩ := h
  subst hd
  rw [not_not] at h4
  rw [not_lt] at h2 h3
  push_neg at h1
  dsimp only
  refine ⟨h1.1, h1.2, h2, h4, by omega, by omega, by omega, ?_, ?_⟩
  · rw [h4]
    exact h4
  · rw [h4]
    omega

/-- If an iteration reconstructs a record but makes no progress (the
wrapped record length is 0) and the record would be emitted, the loop
never terminates within any fuel. -/
theorem loop_none_of_self {model : Nat} {fp : List Nat} {mem : Nat → Nat}
    {cb : Dive → Bool} {offset : Nat} {d : Dive}
    (hguard : miniHeaderSize model + 4 ≤ offset)
    (hok : iterCore model mem offset = .ok d offset)
    (hfp : fpSlice mem d.fpOff ≠ fp)
    (hcb : cb d = true) :
    ∀ fuel, mares_iconhd_foreach_loop model fp mem cb fuel offset = none := by
  intro fuel
  induction fuel with
  | zero => rfl
  | succ f ih =>
    simp only [mares_iconhd_foreach_loop]
    rw [if_neg (by omega)]
    simp only [hok]
    rw [if_neg hfp, if_pos hcb, ih]
    rfl

/-- Any state reachable by the loop extends to the final result: a
completed run from a reached state completes the whole run with the
dives already emitted prepended. -/
theorem loop_extend {model : Nat} {fp : List Nat} {mem : Nat → Nat}
    {cb : Dive → Bool} {L : Nat} {offset : Nat} {ds : List Dive}
    (h : Reaches model fp mem cb L offset ds) :
    ∀ fuel t r, mares_iconhd_foreach_loop model fp mem cb fuel offset = some (t, r) →
    ∃ F, mares_iconhd_foreach_loop model fp mem cb F L = some (ds ++ t, r) := by
  induction h with
  | start =>
    intro fuel t r hl
    exact ⟨fuel, by simpa using hl⟩
  | step hr hguard hok hfp hcb ih =>
    rename_i offset offset' ds d
    intro fuel t r hl
    have hstep : mares_iconhd_foreach_loop model fp mem cb (fuel + 1) offset =
        some (d :: t, r) := by
      simp only [mares_iconhd_foreach_loop]
      rw [if_neg (by omega)]
      simp only [hok]
      rw [if_neg hfp, if_pos hcb, hl]
      rfl
    obtain ⟨F, hF⟩ := ih (fuel + 1) (d :: t) r hstep
    exact ⟨F, by simpa [List.append_assoc] using hF⟩

/-- In a completed run starting at an offset whose stored length field
is nonzero, every emitted dive starts strictly below the starting
offset and the emitted offsets strictly decrease. -/
theorem loop_offsets_lt {model : Nat} {fp : List Nat} {mem : Nat → Nat}
    {cb : Dive → Bool} :
    ∀ fuel offset ds r,
      mares_iconhd_foreach_loop model fp mem cb fuel offset = some (ds, r) →
      array_uint32_le mem offset ≠ 0 →
      (∀ x ∈ ds, x.offset < offset) ∧
      List.Pairwise (fun a b => b.offset < a.offset) ds := by
  intro fuel
  induction fuel with
  | zero => intro offset ds r h; cases h
  | succ f ih =>
    intro offset ds r h hne
    simp only [mares_iconhd_foreach_loop] at h
    by_cases hg : offset < miniHeaderSize model + 4
    · rw [if_pos hg] at h
      simp only [Option.some.injEq, Prod.mk.injEq] at h
      obtain ⟨h1, -⟩ := h
      subst h1
      simp
    · rw [if_neg hg] at h
      cases hcore : iterCore model mem offset with
      | sentinel =>
        simp only [hcore, Option.some.injEq, Prod.mk.injEq] at h
        obtain ⟨h1, -⟩ := h
        subst h1
        simp
      | shortHeader =>
        simp only [hcore, Option.some.injEq, Prod.mk.injEq] at h
        obtain ⟨h1, -⟩ := h
        subst h1
        simp
      | truncated =>
        simp only [hcore, Option.some.injEq, Prod.mk.injEq] at h
        obtain ⟨h1, -⟩ := h
        subst h1
        simp
      | mismatch c s =>
        simp only [hcore, Option.some.injEq, Prod.mk.injEq] at h
        obtain ⟨h1, -⟩ := h
        subst h1
        simp
      | ok d offset' =>
        obtain ⟨-, -, -, -, hlen, hdoff, hoff, hu32, -⟩ := iterCore_ok_inv hcore
        have hlen0 : d.length ≠ 0 := by
          intro h0
          rw [h0, Nat.sub_zero] at hu32
          exact hne hu32
        simp only [hcore] at h
        by_cases hfp : fpSlice mem d.fpOff = fp
        · rw [if_pos hfp] at h
          simp only [Option.some.injEq, Prod.mk.injEq] at h
          obtain ⟨h1, -⟩ := h
          subst h1
          simp
        · rw [if_neg hfp] at h
          cases hcb : cb d with
          | false =>
            rw [if_neg (by simp [hcb])] at h
            simp only [Option.some.injEq, Prod.mk.injEq] at h
            obtain ⟨h1, -⟩ := h
            subst h1
            refine ⟨?_, by simp⟩
            intro x hx
            rw [List.mem_singleton] at hx
            subst hx
            omega
          | true =>
            rw [if_pos hcb] at h
            cases hrec : mares_iconhd_foreach_loop model fp mem cb f offset' with
            | none => rw [hrec] at h; cases h
            | some pr =>
              obtain ⟨ds', r'⟩ := pr
              rw [hrec, Option.map_some'] at h
              simp only [Option.some.injEq, Prod.mk.injEq] at h
              obtain ⟨h1, -⟩ := h
              subst h1
              have hne2 : array_uint32_le mem offset' ≠ 0 := by
                rw [hoff, hu32]
                exact hlen0
              obtain ⟨hall, hpw⟩ := ih offset' ds' r' hrec hne2
              constructor
              · intro x hx
                rcases List.mem_cons.mp hx with hx | hx
                · subst hx; omega
                · have := hall x hx; omega
              · rw [List.pairwise_cons]
                refine ⟨fun x hx => ?_, hpw⟩
                have := hall x hx
                omega

/-- In any completed run, the emitted dives have strictly decreasing
offsets (strict newest-to-oldest order). -/
theorem loop_pairwise {model : Nat} {fp : List Nat} {mem : Nat → Nat}
    {cb : Dive → Bool} (fuel offset : Nat) (ds : List Dive) (r : StopReason)
    (h : mares_iconhd_foreach_loop model fp mem cb fuel offset = some (ds, r)) :
    List.Pairwise (fun a b => b.offset < a.offset) ds := by
  cases fuel with
  | zero => cases h
  | succ f =>
    simp only [mares_iconhd_foreach_loop] at h
    by_cases hg : offset < miniHeaderSize model + 4
    · rw [if_pos hg] at h
      simp only [Option.some.injEq, Prod.mk.injEq] at h
      obtain ⟨h1, -⟩ := h
      subst h1
      simp
    · rw [if_neg hg] at h
      cases hcore : iterCore model mem offset with
      | sentinel =>
        simp only [hcore, Option.some.injEq, Prod.mk.injEq] at h
        obtain ⟨h1, -⟩ := h
        subst h1
        simp
      | shortHeader =>
        simp only [hcore, Option.some.injEq, Prod.mk.injEq] at h
        obtain ⟨h1, -⟩ := h
        subst h1
        simp
      | truncated =>
        simp only [hcore, Option.some.injEq, Prod.mk.injEq] at h
        obtain ⟨h1, -⟩ := h
        subst h1
        simp
      | mismatch c s =>
        simp only [hcore, Option.some.injEq, Prod.mk.injEq] at h
        obtain ⟨h1, -⟩ := h
        subst h1
        simp
      | ok d offset' =>
        obtain ⟨-, -, -, -, hlen, hdoff, hoff, hu32, -⟩ := iterCore_ok_inv hcore
        simp only [hcore] at h
        by_cases hfp : fpSlice mem d.fpOff = fp
        · rw [if_pos hfp] at h
          simp only [Option.some.injEq, Prod.mk.injEq] at h
          obtain ⟨h1, -⟩ := h
          subst h1
          simp
        · rw [if_neg hfp] at h
          cases hcb : cb d with
          | false =>
            rw [if_neg (by simp [hcb])] at h
            simp only [Option.some.injEq, Prod.mk.injEq] at h
            obtain ⟨h1, -⟩ := h
            subst h1
            simp
          | true =>
            rw [if_pos hcb] at h
            cases hrec : mares_iconhd_foreach_loop model fp mem cb f offset' with
            | none => rw [hrec] at h; cases h
            | some pr =>
              obtain ⟨ds', r'⟩ := pr
              rw [hrec, Option.map_some'] at h
              simp only [Option.some.injEq, Prod.mk.injEq] at h
              obtain ⟨h1, -⟩ := h
              subst h1
              by_cases hlen0 : d.length = 0
              · have hoo : offset' = offset := by omega
                have hguard2 : miniHeaderSize model + 4 ≤ offset := by omega
                have hok2 : iterCore model mem offset = CoreResult.ok d offset :=
                  hoo ▸ hcore
                have hnone := loop_none_of_self hguard2 hok2 hfp hcb f
                rw [hoo, hnone] at hrec
                cases hrec
              · have hne2 : array_uint32_le mem offset' ≠ 0 := by
                  rw [hoff, hu32]
                  exact hlen0
                obtain ⟨hall, hpw⟩ := loop_offsets_lt f offset' ds' r' hrec hne2
                rw [List.pairwise_cons]
                refine ⟨fun x hx => ?_, hpw⟩
                have := hall x hx
                omega

/-- Every emitted dive has a fingerprint slice different from the
session fingerprint. -/
theorem loop_all_not_fp {model : Nat} {fp : List Nat} {mem : Nat → Nat}
    {cb : Dive → Bool} :
    ∀ fuel offset ds r,
      mares_iconhd_foreach_loop model fp mem cb fuel offset = some (ds, r) →
      ∀ x ∈ ds, fpSlice mem x.fpOff ≠ fp := by
  intro fuel
  induction fuel with
  | zero => intro offset ds r h; cases h
  | succ f ih =>
    intro offset ds r h x hx
    simp only [mares_iconhd_foreach_loop] at h
    by_cases hg : offset < miniHeaderSize model + 4
    · rw [if_pos hg] at h
      simp only [Option.some.injEq, Prod.mk.injEq] at h
      obtain ⟨h1, -⟩ := h
      subst h1
      cases hx
    · rw [if_neg hg] at h
      cases hcore : iterCore model mem offset with
      | sentinel =>
        simp only [hcore, Option.some.injEq, Prod.mk.injEq] at h
        obtain ⟨h1, -⟩ := h
        subst h1
        cases hx
      | shortHeader =>
        simp only [hcore, Option.some.injEq, Prod.mk.injEq] at h
        obtain ⟨h1, -⟩ := h
        subst h1
        cases hx
      | truncated =>
        simp only [hcore, Option.some.injEq, Prod.mk.injEq] at h
        obtain ⟨h1, -⟩ := h
        subst h1
        cases hx
      | mismatch c s =>
        simp only [hcore, Option.some.injEq, Prod.mk.injEq] at h
        obtain ⟨h1, -⟩ := h
        subst h1
        cases hx
      | ok d offset' =>
        simp only [hcore] at h
        by_cases hfp : fpSlice mem d.fpOff = fp
        · rw [if_pos hfp] at h
          simp only [Option.some.injEq, Prod.mk.injEq] at h
          obtain ⟨h1, -⟩ := h
          subst h1
          cases hx
        · rw [if_neg hfp] at h
          cases hcb : cb d with
          | false =>
            rw [if_neg (by simp [hcb])] at h
            simp only [Option.some.injEq, Prod.mk.injEq] at h
            obtain ⟨h1, -⟩ := h
            subst h1
            rw [List.mem_singleton] at hx
            subst hx
            exact hfp
          | true =>
            rw [if_pos hcb] at h
            cases hrec : mares_iconhd_foreach_loop model fp mem cb f offset' with
            | none => rw [hrec] at h; cases h
            | some pr =>
              obtain ⟨ds', r'⟩ := pr
              rw [hrec, Option.map_some'] at h
              simp only [Option.some.injEq, Prod.mk.injEq] at h
              obtain ⟨h1, -⟩ := h
              subst h1
              rcases List.mem_cons.mp hx with hx | hx
              · subst hx; exact hfp
              · exact ih offset' ds' r' hrec x hx

/-- If the loop stops with a fingerprint match, the matched record has
exactly the session fingerprint. -/
theorem loop_fpMatch_slice {model : Nat} {fp : List Nat} {mem : Nat → Nat}
    {cb : Dive → Bool} :
    ∀ fuel offset ds d,
      mares_iconhd_foreach_loop model fp mem cb fuel offset = some (ds, .fpMatch d) →
      fpSlice mem d.fpOff = fp := by
  intro fuel
  induction fuel with
  | zero => intro offset ds d h; cases h
  | succ f ih =>
    intro offset ds d h
    simp only [mares_iconhd_foreach_loop] at h
    by_cases hg : offset < miniHeaderSize model + 4
    · rw [if_pos hg] at h
      simp only [Option.some.injEq, Prod.mk.injEq] at h
      obtain ⟨-, h2⟩ := h
      cases h2
    · rw [if_neg hg] at h
      cases hcore : iterCore model mem offset with
      | sentinel =>
        simp only [hcore, Option.some.injEq, Prod.mk.injEq] at h
        obtain ⟨-, h2⟩ := h
        cases h2
      | shortHeader =>
        simp only [hcore, Option.some.injEq, Prod.mk.injEq] at h
        obtain ⟨-, h2⟩ := h
        cases h2
      | truncated =>
        simp only [hcore, Option.some.injEq, Prod.mk.injEq] at h
        obtain ⟨-, h2⟩ := h
        cases h2
      | mismatch c s =>
        simp only [hcore, Option.some.injEq, Prod.mk.injEq] at h
        obtain ⟨-, h2⟩ := h
        cases h2
      | ok d0 offset' =>
        simp only [hcore] at h
        by_cases hfp : fpSlice mem d0.fpOff = fp
        · rw [if_pos hfp] at h
          simp only [Option.some.injEq, Prod.mk.injEq] at h
          obtain ⟨-, h2⟩ := h
          injection h2 with h3
          subst h3
          exact hfp
        · rw [if_neg hfp] at h
          cases hcb : cb d0 with
          | false =>
            rw [if_neg (by simp [hcb])] at h
            simp only [Option.some.injEq, Prod.mk.injEq] at h
            obtain ⟨-, h2⟩ := h
            cases h2
          | true =>
            rw [if_pos hcb] at h
            cases hrec : mares_iconhd_foreach_loop model fp mem cb f offset' with
            | none => rw [hrec] at h; cases h
            | some pr =>
              obtain ⟨ds', r'⟩ := pr
              rw [hrec, Option.map_some'] at h
              simp only [Option.some.injEq, Prod.mk.injEq] at h
              obtain ⟨-, h2⟩ := h
              subst h2
              exact ih offset' ds' d hrec

/-- If the loop stops because the callback returned false, the stopping
record was passed to the callback (it is among the emitted dives) and
the callback returned false on it. -/
theorem loop_cbStop_mem {model : Nat} {fp : List Nat} {mem : Nat → Nat}
    {cb : Dive → Bool} :
    ∀ fuel offset ds d,
      mares_iconhd_foreach_loop model fp mem cb fuel offset = some (ds, .cbStop d) →
      cb d = false ∧ d ∈ ds := by
  intro fuel
  induction fuel with
  | zero => intro offset ds d h; cases h
  | succ f ih =>
    intro offset ds d h
    simp only [mares_iconhd_foreach_loop] at h
    by_cases hg : offset < miniHeaderSize model + 4
    · rw [if_pos hg] at h
      simp only [Option.some.injEq, Prod.mk.injEq] at h
      obtain ⟨-, h2⟩ := h
      cases h2
    · rw [if_neg hg] at h
      cases hcore : iterCore model mem offset with
      | sentinel =>
        simp only [hcore, Option.some.injEq, Prod.mk.injEq] at h
        obtain ⟨-, h2⟩ := h
        cases h2
      | shortHeader =>
        simp only [hcore, Option.some.injEq, Prod.mk.injEq] at h
        obtain ⟨-, h2⟩ := h
        cases h2
      | truncated =>
        simp only [hcore, Option.some.injEq, Prod.mk.injEq] at h
        obtain ⟨-, h2⟩ := h
        cases h2
      | mismatch c s =>
        simp only [hcore, Option.some.injEq, Prod.mk.injEq] at h
        obtain ⟨-, h2⟩ := h
        cases h2
      | ok d0 offset' =>
        simp only [hcore] at h
        by_cases hfp : fpSlice mem d0.fpOff = fp
        · rw [if_pos hfp] at h
          simp only [Option.some.injEq, Prod.mk.injEq] at h
          obtain ⟨-, h2⟩ := h
          cases h2
        · rw [if_neg hfp] at h
          cases hcb : cb d0 with
          | false =>
            rw [if_neg (by simp [hcb])] at h
            simp only [Option.some.injEq, Prod.mk.injEq] at h
            obtain ⟨h1, h2⟩ := h
            injection h2 with h3
            subst h3
            subst h1
            exact ⟨hcb, List.mem_singleton_self _⟩
          | true =>
            rw [if_pos hcb] at h
            cases hrec : mares_iconhd_foreach_loop model fp mem cb f offset' with
            | none => rw [hrec] at h; cases h
            | some pr =>
              obtain ⟨ds', r'⟩ := pr
              rw [hrec, Option.map_some'] at h
              simp only [Option.some.injEq, Prod.mk.injEq] at h
              obtain ⟨h1, h2⟩ := h
              subst h2
              obtain ⟨hc, hm⟩ := ih offset' ds' d hrec
              exact ⟨hc, h1 ▸ List.mem_cons_of_mem d0 hm⟩

/-- With a callback that accepts everything, the loop emits exactly the
longest prefix of the full record walk whose fingerprint slices differ
from the session fingerprint. -/
theorem loop_sync_takeWhile {model : Nat} {fp : List Nat} {mem : Nat → Nat} :
    ∀ fuel offset rs ds r,
      ringWalk model mem fuel offset = some rs →
      mares_iconhd_foreach_loop model fp mem cbTrue fuel offset = some (ds, r) →
      ds = rs.takeWhile (fun x => decide (fpSlice mem x.fpOff ≠ fp)) := by
  intro fuel
  induction fuel with
  | zero => intro offset rs ds r h1 h2; cases h1
  | succ f ih =>
    intro offset rs ds r h1 h2
    simp only [ringWalk] at h1
    simp only [mares_iconhd_foreach_loop] at h2
    by_cases hg : offset < miniHeaderSize model + 4
    · rw [if_pos hg] at h1 h2
      obtain h1 := Option.some.inj h1
      simp only [Option.some.injEq, Prod.mk.injEq] at h2
      obtain ⟨h2, -⟩ := h2
      subst h1 h2
      rfl
    · rw [if_neg hg] at h1 h2
      cases hcore : iterCore model mem offset with
      | sentinel =>
        simp only [hcore, Option.some.injEq, Prod.mk.injEq] at h1 h2
        obtain ⟨h2, -⟩ := h2
        subst h1 h2
        rfl
      | shortHeader =>
        simp only [hcore, Option.some.injEq, Prod.mk.injEq] at h1 h2
        obtain ⟨h2, -⟩ := h2
        subst h1 h2
        rfl
      | truncated =>
        simp only [hcore, Option.some.injEq, Prod.mk.injEq] at h1 h2
        obtain ⟨h2, -⟩ := h2
        subst h1 h2
        rfl
      | mismatch c s =>
        simp only [hcore, Option.some.injEq, Prod.mk.injEq] at h1 h2
        obtain ⟨h2, -⟩ := h2
        subst h1 h2
        rfl
      | ok d offset' =>
        simp only [hcore] at h1 h2
        cases hrw : ringWalk model mem f offset' with
        | none => rw [hrw] at h1; cases h1
        | some rs' =>
          rw [hrw, Option.map_some'] at h1
          obtain h1 := Option.some.inj h1
          subst h1
          by_cases hfp : fpSlice mem d.fpOff = fp
          · rw [if_pos hfp] at h2
            simp only [Option.some.injEq, Prod.mk.injEq] at h2
            obtain ⟨h2, -⟩ := h2
            subst h2
            simp [List.takeWhile_cons, hfp]
          · rw [if_neg hfp, if_pos (show cbTrue d = true from rfl)] at h2
            cases hrec : mares_iconhd_foreach_loop model fp mem cbTrue f offset' with
            | none => rw [hrec] at h2; cases h2
            | some pr =>
              obtain ⟨ds', r'⟩ := pr
              rw [hrec, Option.map_some'] at h2
              simp only [Option.some.injEq, Prod.mk.injEq] at h2
              obtain ⟨h2, -⟩ := h2
              subst h2
              have := ih offset' rs' ds' r' hrw hrec
              simp [List.takeWhile_cons, hfp, this]

/-- When the selected ring pointer is in range, `foreach` wraps a
completed loop run as `Success` with the emitted dives. -/
theorem foreach_of_loop {layout : Layout} {model : Nat} {fp : List Nat}
    {devmem ring : Nat → Nat} {cb : Dive → Bool} {fuel : Nat}
    {ds : List Dive} {r : StopReason}
    (hin : ¬((if array_uint32_le devmem 0x2001 ≠ RING_SENTINEL then
        array_uint32_le devmem 0x2001 else array_uint32_le devmem 0x3001) <
          layout.rb_profile_begin ∨
      layout.rb_profile_end ≤
        (if array_uint32_le devmem 0x2001 ≠ RING_SENTINEL then
          array_uint32_le devmem 0x2001 else array_uint32_le devmem 0x3001)))
    (hl : mares_iconhd_foreach_loop model fp ring cb fuel
        (layout.rb_profile_end - layout.rb_profile_begin) = some (ds, r)) :
    mares_iconhd_device_foreach layout model fp devmem ring cb fuel =
      some (.success, ds) := by
  simp only [mares_iconhd_device_foreach]
  rw [if_neg hin, hl]
  rfl

/-! ### Claim theorems -/

/-- Claim C6: for every command/answer pair, `transfer` retries the
packet exchange only on `Protocol` or `Timeout` failures, purging
buffered input once before each retry, for at most 4 retries (5 total
attempts); it returns `Success` as soon as an attempt succeeds, returns
any other failure immediately without retrying, and after the 5th
failed attempt returns the last failure unchanged.  Stated as the full
characterization of (status, attempts made, purges): at least 1 and at
most 5 attempts are made; the returned status is the status of the last
attempt, unchanged; every attempt before the last failed with
`Protocol` or `Timeout`; if fewer than 5 attempts were made, the last
attempt did not fail with `Protocol`/`Timeout` (so it succeeded or
failed hard and was not retried); the input purge ran exactly once
before each retry. -/
theorem mares_C6_transfer_retry (attempts : Nat → DCStatus) :
    1 ≤ (mares_iconhd_transfer attempts).2.1 ∧
    (mares_iconhd_transfer attempts).2.1 ≤ 5 ∧
    (mares_iconhd_transfer attempts).1 =
      attempts ((mares_iconhd_transfer attempts).2.1 - 1) ∧
    (∀ k, k + 1 < (mares_iconhd_transfer attempts).2.1 →
      attempts k = .protocol ∨ attempts k = .timeout) ∧
    ((mares_iconhd_transfer attempts).2.1 < 5 →
      ¬(attempts ((mares_iconhd_transfer attempts).2.1 - 1) = .protocol ∨
        attempts ((mares_iconhd_transfer attempts).2.1 - 1) = .timeout)) ∧
    (mares_iconhd_transfer attempts).2.2 = (mares_iconhd_transfer attempts).2.1 - 1 := by
  obtain ⟨m, hm1, hm2, hm3, hm4, hm5⟩ := transferLoop_spec attempts MAXRETRIES 0
  unfold mares_iconhd_transfer
  rw [hm3]
  simp only [MAXRETRIES] at hm2 hm5 ⊢
  refine ⟨by omega, by omega, by simp, ?_, ?_, by simp⟩
  · intro k hk
    exact hm4 k (Nat.zero_le k) (by omega)
  · intro h
    simpa using hm5 (by omega)

/-- Witness for C6 at a concrete attempt sequence: one framing failure
followed by a success; the returned status is the status of the last
attempt made. -/
theorem mares_C6_witness :
    (mares_iconhd_transfer attemptsW).1 =
      attemptsW ((mares_iconhd_transfer attemptsW).2.1 - 1) :=
  (mares_C6_transfer_retry attemptsW).2.2.1

/-- Claim C7: for every command of at least 2 bytes and every answer
size, `packet` fails with `Cancelled` before any I/O if the session is
cancelled; otherwise it sends the first 2 command bytes, reads exactly
1 header byte and returns `Protocol` if it is not 0xAA, sends the
remaining command bytes, reads exactly `asize` answer bytes, reads
exactly 1 trailer byte and returns `Protocol` if it is not 0xEA, and
returns `Success` exactly when both framing bytes matched. -/
theorem mares_C7_packet_framing (cancelled : Bool) (command : List Nat)
    (instream : Nat → Nat) (asize : Nat) (hc : 2 ≤ command.length) :
    (cancelled = true →
      mares_iconhd_packet cancelled command instream asize = (.cancelled, [], [])) ∧
    (cancelled = false →
      (instream 0 % 256 ≠ ACK →
        mares_iconhd_packet cancelled command instream asize =
          (.protocol, [.sendBytes (command.take 2), .readBytes 1], [])) ∧
      (instream 0 % 256 = ACK →
        (mares_iconhd_packet cancelled command instream asize).2.1 =
          [WireEvent.sendBytes (command.take 2), WireEvent.readBytes 1] ++
            (if 2 < command.length then [WireEvent.sendBytes (command.drop 2)] else []) ++
            [WireEvent.readBytes asize, WireEvent.readBytes 1] ∧
        (mares_iconhd_packet cancelled command instream asize).2.2 =
          (List.range asize).map (fun i => instream (1 + i) % 256) ∧
        ((mares_iconhd_packet cancelled command instream asize).1 = .success ↔
          instream (1 + asize) % 256 = EOF_BYTE) ∧
        (instream (1 + asize) % 256 ≠ EOF_BYTE →
          (mares_iconhd_packet cancelled command instream asize).1 = .protocol))) := by
  constructor
  · intro h
    subst h
    rfl
  · intro h
    subst h
    constructor
    · intro hh
      simp only [mares_iconhd_packet, Bool.false_eq_true, if_false, if_pos hh]
    · intro hh
      simp only [mares_iconhd_packet, Bool.false_eq_true, if_false, if_neg (not_not.mpr hh)]
      by_cases ht : instream (1 + asize) % 256 = EOF_BYTE
      · rw [if_neg (not_not.mpr ht)]
        exact ⟨by simp, rfl, Iff.intro (fun _ => ht) (fun _ => rfl),
          fun h => absurd ht h⟩
      · rw [if_pos ht]
        exact ⟨by simp, rfl, Iff.intro (fun h => by cases h) (fun h => absurd h ht),
          fun _ => rfl⟩

/-- Witness for C7 at a concrete exchange: not cancelled, ACK header,
EOF trailer, so the exchange succeeds. -/
theorem mares_C7_witness :
    (mares_iconhd_packet false [194, 103] instreamW 1).1 = .success ↔
      instreamW (1 + 1) % 256 = EOF_BYTE :=
  (((mares_C7_packet_framing false [194, 103] instreamW 1 (by decide)).2
    rfl).2 (by decide)).2.2.1

/-- Claim C8: model detection compares bytes `[0x46, 0x46+16)` of the
140-byte version blob against the static ordered name table by exact
16-byte comparison (names NUL-padded), taking the first match; a blob
whose name field is `Puck 2` (NUL-padded) yields the nemowide2 layout
and packet size 256, and an unrecognized name yields model id 0 with
the default (iconhd) layout and packet size 4096. -/
theorem mares_C8_model_detection :
    (∀ version : Nat → Nat,
      versionName version = padName [80, 117, 99, 107, 32, 50] →
      mares_iconhd_get_model version = PUCK2 ∧
      modelLayout (mares_iconhd_get_model version) = mares_nemowide2_layout ∧
      modelPacketsize (mares_iconhd_get_model version) = 256) ∧
    (∀ version : Nat → Nat,
      (∀ m ∈ models, versionName version ≠ m.1) →
      mares_iconhd_get_model version = 0 ∧
      modelLayout (mares_iconhd_get_model version) = mares_iconhd_layout ∧
      modelPacketsize (mares_iconhd_get_model version) = 4096) ∧
    (∀ (version : Nat → Nat) (i : Nat) (h : i < models.length),
      versionName version = (models.get ⟨i, h⟩).1 →
      (∀ j (hj : j < i), versionName version ≠ (models.get ⟨j, Nat.lt_trans hj h⟩).1) →
      mares_iconhd_get_model version = (models.get ⟨i, h⟩).2) := by
  refine ⟨?_, ?_, ?_⟩
  · intro version h
    have hm : mares_iconhd_get_model version = PUCK2 := by
      unfold mares_iconhd_get_model
      simp only [h]
      decide
    rw [hm]
    exact ⟨rfl, by decide, by decide⟩
  · intro version h
    have hfind : models.find? (fun m => versionName version = m.1) = none := by
      rw [List.find?_eq_none]
      intro m hm
      simpa using h m hm
    have hm : mares_iconhd_get_model version = 0 := by
      unfold mares_iconhd_get_model
      rw [hfind]
    rw [hm]
    exact ⟨rfl, by decide, by decide⟩
  · intro version i h hp hearlier
    have hfind := find_first_of_earlier_false
      (fun m => decide (versionName version = m.1)) models i h
      (by simpa using hp) (by intro j hj; simpa using hearlier j hj)
    unfold mares_iconhd_get_model
    rw [hfind]

/-- Witness for C8 at a concrete version blob carrying the name
`Puck 2`. -/
theorem mares_C8_witness :
    mares_iconhd_get_model versionPuck2 = PUCK2 ∧
    modelLayout (mares_iconhd_get_model versionPuck2) = mares_nemowide2_layout ∧
    modelPacketsize (mares_iconhd_get_model versionPuck2) = 256 :=
  mares_C8_model_detection.1 versionPuck2 (by decide)

/-- Claim C3: `foreach` reads the ring write pointer from address
0x2001 and, only if that 4-byte little-endian value is 0xFFFFFFFF, from
0x3001; if both candidates are the all-ones sentinel it returns
`Success` having emitted zero dives, and if the chosen eop is outside
`[rb_profile_begin, rb_profile_end)` (and is not the sentinel) it
returns `DataFormat`.  The first conjunct is the empty-log case, the
second the out-of-range case, and the third states that the value at
0x3001 is never consulted when the value at 0x2001 is not the
sentinel. -/
theorem mares_C3_ring_pointer (layout : Layout) (model : Nat) (fp : List Nat)
    (devmem ring : Nat → Nat) (cb : Dive → Bool) (fuel : Nat)
    (hlayout : layout = mares_iconhd_layout ∨ layout = mares_iconhdnet_layout ∨
      layout = mares_matrix_layout ∨ layout = mares_nemowide2_layout) :
    (array_uint32_le devmem 0x2001 = RING_SENTINEL →
      array_uint32_le devmem 0x3001 = RING_SENTINEL →
      mares_iconhd_device_foreach layout model fp devmem ring cb fuel =
        some (.success, [])) ∧
    ((if array_uint32_le devmem 0x2001 ≠ RING_SENTINEL then
        array_uint32_le devmem 0x2001 else array_uint32_le devmem 0x3001) ≠ RING_SENTINEL →
      ((if array_uint32_le devmem 0x2001 ≠ RING_SENTINEL then
          array_uint32_le devmem 0x2001 else array_uint32_le devmem 0x3001) <
            layout.rb_profile_begin ∨
        layout.rb_profile_end ≤
          (if array_uint32_le devmem 0x2001 ≠ RING_SENTINEL then
            array_uint32_le devmem 0x2001 else array_uint32_le devmem 0x3001)) →
      mares_iconhd_device_foreach layout model fp devmem ring cb fuel =
        some (.dataformat, [])) ∧
    (∀ devmem2 : Nat → Nat,
      array_uint32_le devmem 0x2001 ≠ RING_SENTINEL →
      array_uint32_le devmem2 0x2001 = array_uint32_le devmem 0x2001 →
      mares_iconhd_device_foreach layout model fp devmem2 ring cb fuel =
        mares_iconhd_device_foreach layout model fp devmem ring cb fuel) := by
  have hrange : layout.rb_profile_end ≤ RING_SENTINEL := by
    rcases hlayout with h | h | h | h <;> subst h <;> decide
  refine ⟨?_, ?_, ?_⟩
  · intro h1 h2
    simp only [mares_iconhd_device_foreach]
    rw [h1, h2]
    simp [hrange]
  · intro hne hout
    simp only [mares_iconhd_device_foreach]
    rw [if_pos hout, if_neg hne]
  · intro devmem2 hne h2
    simp only [mares_iconhd_device_foreach]
    rw [h2]
    simp only [if_pos hne]

/-- Witness for C3: with both pointer fields reading 0xFFFFFFFF on the
Matrix layout, `foreach` returns `Success` with zero dives. -/
theorem mares_C3_witness :
    mares_iconhd_device_foreach mares_matrix_layout ICONHD fpZero memFF memFF cbTrue 0 =
      some (.success, []) :=
  (mares_C3_ring_pointer mares_matrix_layout ICONHD fpZero memFF memFF cbTrue 0
    (Or.inr (Or.inr (Or.inl rfl)))).1 (by decide) (by decide)

/-- Claim C1: during enumeration, when a reconstructed record has a
fingerprint slice (taken at the model-specific offset inside its
header) equal to the stored 10-byte session fingerprint, enumeration
stops with `Success` without invoking the callback for that record; the
callback is invoked exactly for the records newer than the matching one
(the longest prefix, in walk order, of the structurally valid record
sequence whose slices differ from the fingerprint), in strictly
newest-to-oldest order; and a falsy callback return also stops
enumeration with `Success`. -/
theorem mares_C1_fingerprint_enumeration (model : Nat) (fp : List Nat)
    (mem : Nat → Nat) (cb : Dive → Bool) (fuel L0 : Nat) :
    (∀ rs ds r, ringWalk model mem fuel L0 = some rs →
      mares_iconhd_foreach_loop model fp mem cbTrue fuel L0 = some (ds, r) →
      ds = rs.takeWhile (fun x => decide (fpSlice mem x.fpOff ≠ fp))) ∧
    (∀ ds r, mares_iconhd_foreach_loop model fp mem cb fuel L0 = some (ds, r) →
      List.Pairwise (fun a b => b.offset < a.offset) ds ∧
      ∀ x ∈ ds, fpSlice mem x.fpOff ≠ fp) ∧
    (∀ ds d, mares_iconhd_foreach_loop model fp mem cb fuel L0 =
        some (ds, .fpMatch d) →
      fpSlice mem d.fpOff = fp ∧ d ∉ ds) ∧
    (∀ ds d, mares_iconhd_foreach_loop model fp mem cb fuel L0 =
        some (ds, .cbStop d) →
      cb d = false ∧ d ∈ ds) ∧
    (∀ (layout : Layout) (devmem : Nat → Nat) ds r,
      ¬((if array_uint32_le devmem 0x2001 ≠ RING_SENTINEL then
          array_uint32_le devmem 0x2001 else array_uint32_le devmem 0x3001) <
            layout.rb_profile_begin ∨
        layout.rb_profile_end ≤
          (if array_uint32_le devmem 0x2001 ≠ RING_SENTINEL then
            array_uint32_le devmem 0x2001 else array_uint32_le devmem 0x3001)) →
      mares_iconhd_foreach_loop model fp mem cb fuel
          (layout.rb_profile_end - layout.rb_profile_begin) = some (ds, r) →
      mares_iconhd_device_foreach layout model fp devmem mem cb fuel =
        some (.success, ds)) := by
  refine ⟨?_, ?_, ?_, ?_, ?_⟩
  · intro rs ds r h1 h2
    exact loop_sync_takeWhile fuel L0 rs ds r h1 h2
  · intro ds r h
    exact ⟨loop_pairwise fuel L0 ds r h, loop_all_not_fp fuel L0 ds r h⟩
  · intro ds d h
    have hs := loop_fpMatch_slice fuel L0 ds d h
    exact ⟨hs, fun hmem => loop_all_not_fp fuel L0 ds _ h d hmem hs⟩
  · intro ds d h
    exact loop_cbStop_mem fuel L0 ds d h
  · intro layout devmem ds r hin hl
    exact foreach_of_loop hin hl

/-- Witness for C1: on erased memory the walk has no records and the
loop emits the empty take-while prefix. -/
theorem mares_C1_witness :
    ([] : List Dive) =
      List.takeWhile (fun x => decide (fpSlice memFF x.fpOff ≠ fpZero)) [] :=
  (mares_C1_fingerprint_enumeration MATRIX fpZero memFF cbTrue 1 212992).1
    [] [] .sentinel (by decide) (by decide)

/-- Claim C2 (amended): for every record reconstructed by the
enumerator, the computed total record length equals
`4 + headersize + nsamples * samplesize`, plus `(nsamples / 4) * 8` for
models ICONHDNET, QUADAIR and SMARTAIR, and plus
`divetime * samplerate * 2` for model SMARTAPNEA (with `divetime`,
`settings` and `samplerate` decoded from the header as the claim
states), the whole sum reduced modulo `2 ^ 32` - the arithmetic is the
32-bit unsigned arithmetic of the C code, and for SMARTAPNEA the
correction term can make the sum wrap. -/
theorem mares_C2_record_length (model : Nat) (mem : Nat → Nat) (offset : Nat)
    (d : Dive) (offset' : Nat)
    (h : iterCore model mem offset = .ok d offset') :
    d.length = specRecordLength model mem offset
      (decodedType model mem offset % 4) (decodedSamples model mem offset) % U32 := by
  obtain ⟨-, -, -, hlen, -⟩ := iterCore_ok_inv h
  rw [hlen, computeNbytes_eq_spec]

/-- Counterexample for C2 as stated: a SMARTAPNEA record with
`divetime = 0x80000008` and `samplerate = 1` is reconstructed and
emitted with computed length 100, while the unreduced formula of the
claim gives `84 + 2 * 0x80000008 = 4294967396`. -/
theorem mares_C2_counterexample :
    mares_iconhd_foreach_loop SMARTAPNEA fpZero memC cbTrue 2 221184 =
      some ([⟨221084, 100, 221168⟩], .mismatch 84 0) ∧
    iterCore SMARTAPNEA memC 221184 = .ok ⟨221084, 100, 221168⟩ 221084 ∧
    ¬((⟨221084, 100, 221168⟩ : Dive).length =
      specRecordLength SMARTAPNEA memC 221184
        (decodedType SMARTAPNEA memC 221184 % 4)
        (decodedSamples SMARTAPNEA memC 221184)) :=
  ⟨by decide, by decide, by decide⟩

/-- Witness for C2 (amended): a Matrix record of 0 samples has computed
length `4 + 0x5C = 96`, matching the formula modulo `2 ^ 32`. -/
theorem mares_C2_witness :
    (⟨212896, 96, 212906⟩ : Dive).length =
      specRecordLength MATRIX memA 212992
        (decodedType MATRIX memA 212992 % 4)
        (decodedSamples MATRIX memA 212992) % U32 :=
  mares_C2_record_length MATRIX memA 212992 ⟨212896, 96, 212906⟩ 212896 (by decide)

/-- Claim C4: after consuming a record, the enumerator re-reads the
4-byte little-endian length field stored at the new offset; if it
differs from the computed record length, enumeration stops before
emitting that record and `foreach` returns `Success`, with every dive
emitted before the stop unaffected. -/
theorem mares_C4_length_mismatch_stop (layout : Layout) (model : Nat)
    (fp : List Nat) (devmem ring : Nat → Nat) (cb : Dive → Bool)
    (offset : Nat) (ds : List Dive) (c s : Nat)
    (hin : ¬((if array_uint32_le devmem 0x2001 ≠ RING_SENTINEL then
        array_uint32_le devmem 0x2001 else array_uint32_le devmem 0x3001) <
          layout.rb_profile_begin ∨
      layout.rb_profile_end ≤
        (if array_uint32_le devmem 0x2001 ≠ RING_SENTINEL then
          array_uint32_le devmem 0x2001 else array_uint32_le devmem 0x3001)))
    (hreach : Reaches model fp ring cb
      (layout.rb_profile_end - layout.rb_profile_begin) offset ds)
    (hguard : miniHeaderSize model + 4 ≤ offset)
    (hcore : iterCore model ring offset = .mismatch c s) :
    ∃ F, mares_iconhd_device_foreach layout model fp devmem ring cb F =
      some (.success, ds) := by
  have hstop : mares_iconhd_foreach_loop model fp ring cb 1 offset =
      some ([], .mismatch c s) := by
    simp only [mares_iconhd_foreach_loop]
    rw [if_neg (by omega)]
    simp only [hcore]
  obtain ⟨F, hF⟩ := loop_extend hreach 1 [] (.mismatch c s) hstop
  exact ⟨F, foreach_of_loop hin (by simpa using hF)⟩

/-- Witness for C4: after one emitted Matrix dive, the stored length at
the next record start is 0 instead of the computed 96, and `foreach`
stops with `Success` and exactly the one dive already emitted. -/
theorem mares_C4_witness :
    ∃ F, mares_iconhd_device_foreach mares_matrix_layout MATRIX fpZero devmemA
      memA cbTrue F = some (.success, [⟨212896, 96, 212906⟩]) :=
  mares_C4_length_mismatch_stop mares_matrix_layout MATRIX fpZero devmemA memA
    cbTrue 212896 [⟨212896, 96, 212906⟩] 96 0 (by decide)
    (Reaches.step Reaches.start (by decide) (by decide) (by decide) rfl)
    (by decide) (by decide)

/-- Claim C5 (amended): in every iteration the first read is the
model-dependent first portion of the dive header, ending at the
current offset - 4 bytes for SMART and SMARTAIR, 6 for SMARTAPNEA,
0x80 for ICONHDNET, 0x84 for QUADAIR and 0x5C for all other models (so
it is a 4-6 byte mini-header only for the Smart family); the type and
sample-count fields are decoded from its first 4 bytes as 16-bit
little-endian values (SMART, SMARTAPNEA and SMARTAIR store the count
at relative offset 0 and the type at relative offset 2; all other
models store the type at 0 and the count at 2); and if either decoded
value equals 0xFFFF, enumeration stops cleanly with the sentinel stop
reason (a `Success` completion). -/
theorem mares_C5_mini_header (model : Nat) (fp : List Nat) (mem : Nat → Nat)
    (cb : Dive → Bool) (offset fuel : Nat)
    (hguard : miniHeaderSize model + 4 ≤ offset) :
    (iterReads model mem offset).head? =
      some (offset - miniHeaderSize model, miniHeaderSize model) ∧
    (model = SMART ∨ model = SMARTAIR → miniHeaderSize model = 4) ∧
    (model = SMARTAPNEA → miniHeaderSize model = 6) ∧
    (model = ICONHDNET → miniHeaderSize model = 0x80) ∧
    (model = QUADAIR → miniHeaderSize model = 0x84) ∧
    (model ≠ SMART ∧ model ≠ SMARTAIR ∧ model ≠ SMARTAPNEA ∧ model ≠ ICONHDNET ∧
      model ≠ QUADAIR → miniHeaderSize model = 0x5C) ∧
    (smartFamily model →
      decodedSamples model mem offset =
        array_uint16_le mem (offset - miniHeaderSize model + 0) ∧
      decodedType model mem offset =
        array_uint16_le mem (offset - miniHeaderSize model + 2)) ∧
    (¬smartFamily model →
      decodedType model mem offset =
        array_uint16_le mem (offset - miniHeaderSize model + 0) ∧
      decodedSamples model mem offset =
        array_uint16_le mem (offset - miniHeaderSize model + 2)) ∧
    (decodedSamples model mem offset = 0xFFFF ∨
        decodedType model mem offset = 0xFFFF →
      mares_iconhd_foreach_loop model fp mem cb (fuel + 1) offset =
        some ([], .sentinel)) := by
  refine ⟨?_, ?_, ?_, ?_, ?_, ?_, ?_, ?_, ?_⟩
  · simp only [iterReads]
    split_ifs <;> rfl
  · intro h
    rcases h with h | h <;> subst h <;> decide
  · intro h
    subst h
    decide
  · intro h
    subst h
    decide
  · intro h
    subst h
    decide
  · intro h
    obtain ⟨n1, n2, n3, n4, n5⟩ := h
    unfold miniHeaderSize
    rw [if_neg n4, if_neg n5, if_neg (not_or.mpr ⟨n1, n2⟩), if_neg n3]
  · intro h
    constructor
    · unfold decodedSamples
      rw [if_pos h]
    · unfold decodedType
      rw [if_pos h]
  · intro h
    constructor
    · unfold decodedType
      rw [if_neg h]
    · unfold decodedSamples
      rw [if_neg h]
  · intro h
    have hcore : iterCore model mem offset = .sentinel := by
      simp only [iterCore]
      rw [if_pos h]
    simp only [mares_iconhd_foreach_loop]
    rw [if_neg (by omega)]
    simp only [hcore]

/-- Counterexample for C5 as stated: for the Icon HD model the first
read of an iteration is 0x5C = 92 bytes, not a 4-6 byte mini-header. -/
theorem mares_C5_counterexample :
    (iterReads ICONHD memZero 0x1000).head? = some (0x1000 - 0x5C, 0x5C) ∧
    miniHeaderSize ICONHD = 0x5C ∧
    ¬(miniHeaderSize ICONHD ≤ 6) :=
  ⟨by decide, by decide, by decide⟩

/-- Witness for C5 (amended): on erased memory the decoded Smart Apnea
sample count is the 16-bit sentinel and the loop stops cleanly. -/
theorem mares_C5_witness :
    mares_iconhd_foreach_loop SMARTAPNEA fpZero memFF cbTrue 1 221184 =
      some ([], .sentinel) :=
  (mares_C5_mini_header SMARTAPNEA fpZero memFF cbTrue 221184 0
    (by decide)).2.2.2.2.2.2.2.2 (Or.inl (by decide))

/-- Claim C9 (amended): when the ring write pointer equals
`rb_profile_begin` exactly, it passes the range check and enumeration
proceeds over the full ring length; if the bytes the walk then reads at
the newest end decode to the 16-bit sentinel (erased memory at the
wrap), `foreach` enumerates zero dives and returns `Success`.  Without
a condition on the ring content the original claim fails: the walk
still parses whatever records precede the pointer in ring order (see
the counterexample). -/
theorem mares_C9_eop_begin (layout : Layout) (model : Nat) (fp : List Nat)
    (devmem ring : Nat → Nat) (cb : Dive → Bool) (fuel : Nat)
    (hlayout : layout = mares_iconhd_layout ∨ layout = mares_iconhdnet_layout ∨
      layout = mares_matrix_layout ∨ layout = mares_nemowide2_layout)
    (hp : array_uint32_le devmem 0x2001 = layout.rb_profile_begin)
    (hsent : decodedSamples model ring
        (layout.rb_profile_end - layout.rb_profile_begin) = 0xFFFF ∨
      decodedType model ring
        (layout.rb_profile_end - layout.rb_profile_begin) = 0xFFFF) :
    mares_iconhd_device_foreach layout model fp devmem ring cb (fuel + 1) =
      some (.success, []) := by
  have hL : 0x34000 ≤ layout.rb_profile_end - layout.rb_profile_begin := by
    rcases hlayout with h | h | h | h <;> subst h <;> decide
  have hne : layout.rb_profile_begin ≠ RING_SENTINEL := by
    rcases hlayout with h | h | h | h <;> subst h <;> decide
  have hinr : ¬(layout.rb_profile_begin < layout.rb_profile_begin ∨
      layout.rb_profile_end ≤ layout.rb_profile_begin) := by
    rcases hlayout with h | h | h | h <;> subst h <;> decide
  have hcore : iterCore model ring
      (layout.rb_profile_end - layout.rb_profile_begin) = .sentinel := by
    simp only [iterCore]
    rw [if_pos hsent]
  have hmini := miniHeaderSize_le model
  have hloop : mares_iconhd_foreach_loop model fp ring cb (fuel + 1)
      (layout.rb_profile_end - layout.rb_profile_begin) =
        some ([], .sentinel) := by
    simp only [mares_iconhd_foreach_loop]
    rw [if_neg (by omega)]
    simp only [hcore]
  have hin : ¬((if array_uint32_le devmem 0x2001 ≠ RING_SENTINEL then
      array_uint32_le devmem 0x2001 else array_uint32_le devmem 0x3001) <
        layout.rb_profile_begin ∨
    layout.rb_profile_end ≤
      (if array_uint32_le devmem 0x2001 ≠ RING_SENTINEL then
        array_uint32_le devmem 0x2001 else array_uint32_le devmem 0x3001)) := by
    rw [hp, if_pos hne]
    exact hinr
  exact foreach_of_loop hin hloop

/-- Counterexample for C9 as stated: with the ring pointer equal to
`rb_profile_begin` of the Matrix layout but a valid record in the ring
content, `foreach` emits one dive, not zero. -/
theorem mares_C9_counterexample :
    array_uint32_le devmemA 0x2001 = mares_matrix_layout.rb_profile_begin ∧
    mares_iconhd_device_foreach mares_matrix_layout MATRIX fpZero devmemA memA
      cbTrue 2 = some (.success, [⟨212896, 96, 212906⟩]) :=
  ⟨by decide, by decide⟩

/-- Witness for C9 (amended): ring pointer at `rb_profile_begin` with
erased ring content yields zero dives and `Success`. -/
theorem mares_C9_witness :
    mares_iconhd_device_foreach mares_matrix_layout MATRIX fpZero devmemA memFF
      cbTrue 1 = some (.success, []) :=
  mares_C9_eop_begin mares_matrix_layout MATRIX fpZero devmemA memFF cbTrue 0
    (Or.inr (Or.inr (Or.inl rfl))) (by decide) (Or.inl (by decide))

/-- Claim C10 (amended): throughout the backward walk - provided no
iteration wraps its record-length computation modulo `2 ^ 32`, stated
as the hypothesis that the unreduced formula stays below `2 ^ 32` for
every 16-bit sample count (always true except possibly for SMARTAPNEA
via the `divetime * samplerate * 2` term) - the scratch offset stays at
most the ring length `L`, strictly decreases across iterations, every
scratch-buffer access of the iteration lies within the `L`-byte buffer,
`headersize ≥ mini-header size` and `fingerprint offset + 10 ≤
headersize` hold for every model and mode in the lookup table, and
every computed record length is at least `4 + headersize`. -/
theorem mares_C10_walk_safety (model : Nat) (fp : List Nat) (mem : Nat → Nat)
    (cb : Dive → Bool) (L offset : Nat) (ds : List Dive)
    (hnw : ∀ off mode ns, ns < 0x10000 →
      specRecordLength model mem off mode ns < U32)
    (hreach : Reaches model fp mem cb L offset ds) :
    offset ≤ L ∧
    (miniHeaderSize model + 4 ≤ offset →
      (iterReads model mem offset).all (fun pr => pr.1 + pr.2 ≤ L) = true) ∧
    (∀ d' off', iterCore model mem offset = .ok d' off' → off' < offset) ∧
    (∀ mode, miniHeaderSize model ≤ (diveFormat model mode).headersize ∧
      (diveFormat model mode).fingerprint + 10 ≤ (diveFormat model mode).headersize) ∧
    (∀ off mode ns, ns < 0x10000 →
      4 + (diveFormat model mode).headersize ≤ computeNbytes model mem off mode ns) := by
  have hnb : ∀ off mode ns, ns < 0x10000 →
      4 + (diveFormat model mode).headersize ≤ computeNbytes model mem off mode ns ∧
      computeNbytes model mem off mode ns < U32 := by
    intro off mode ns hns
    have hs := spec_ge_headersize model mem off mode ns
    have hw := hnw off mode ns hns
    rw [computeNbytes_eq_spec, Nat.mod_eq_of_lt hw]
    exact ⟨hs, hw⟩
  have hnslt : ∀ off, decodedSamples model mem off < 0x10000 := by
    intro off
    unfold decodedSamples
    split_ifs <;> exact array_uint16_le_lt _ _
  have hstrict : ∀ off d' off2, iterCore model mem off = .ok d' off2 → off2 < off := by
    intro off d' off2 hok
    obtain ⟨-, -, -, hlen, hle, -, hoff2, -, -⟩ := iterCore_ok_inv hok
    have hge := (hnb off (decodedType model mem off % 4)
      (decodedSamples model mem off) (hnslt off)).1
    omega
  have hoffL : offset ≤ L := by
    induction hreach with
    | start => exact le_refl L
    | step hr hguard hok hfp hcb ih =>
      rename_i off off2 ds0 d0
      have := hstrict off d0 off2 hok
      omega
  refine ⟨hoffL, ?_, hstrict offset, fun mode => diveFormat_bounds model mode,
    fun off mode ns hns => (hnb off mode ns hns).1⟩
  intro hg
  rw [List.all_eq_true]
  intro pr hpr
  simp only [decide_eq_true_eq]
  have hfmt := diveFormat_bounds model (decodedType model mem offset % 4)
  have hge := hnb offset (decodedType model mem offset % 4)
    (decodedSamples model mem offset) (hnslt offset)
  simp only [iterReads] at hpr
  split_ifs at hpr with h1 h2 h3 h4
  · rcases List.mem_singleton.mp hpr with rfl
    dsimp only
    omega
  · rcases List.mem_singleton.mp hpr with rfl
    dsimp only
    omega
  · rw [not_lt] at h2
    rcases List.mem_cons.mp hpr with rfl | hpr
    · dsimp only
      omega
    · rcases List.mem_singleton.mp hpr with rfl
      dsimp only
      omega
  · rw [not_lt] at h2 h3
    have hmod : (computeNbytes model mem offset (decodedType model mem offset % 4)
          (decodedSamples model mem offset) + U32 -
        (diveFormat model (decodedType model mem offset % 4)).headersize) % U32 =
        computeNbytes model mem offset (decodedType model mem offset % 4)
          (decodedSamples model mem offset) -
        (diveFormat model (decodedType model mem offset % 4)).headersize := by
      have heq : computeNbytes model mem offset (decodedType model mem offset % 4)
            (decodedSamples model mem offset) + U32 -
          (diveFormat model (decodedType model mem offset % 4)).headersize =
          U32 + (computeNbytes model mem offset (decodedType model mem offset % 4)
            (decodedSamples model mem offset) -
          (diveFormat model (decodedType model mem offset % 4)).headersize) := by
        omega
      rw [heq, Nat.add_mod_left, Nat.mod_eq_of_lt (by omega)]
    rcases List.mem_cons.mp hpr with rfl | hpr
    · dsimp only
      omega
    · rcases List.mem_cons.mp hpr with rfl | hpr
      · dsimp only
        omega
      · rcases List.mem_cons.mp hpr with rfl | hpr
        · dsimp only
          rw [hmod]
          omega
        · rcases List.mem_singleton.mp hpr with rfl
          dsimp only
          omega
  · rw [not_lt] at h2 h3
    rw [not_not] at h4
    have hmod : (computeNbytes model mem offset (decodedType model mem offset % 4)
          (decodedSamples model mem offset) + U32 -
        (diveFormat model (decodedType model mem offset % 4)).headersize) % U32 =
        computeNbytes model mem offset (decodedType model mem offset % 4)
          (decodedSamples model mem offset) -
        (diveFormat model (decodedType model mem offset % 4)).headersize := by
      have heq : computeNbytes model mem offset (decodedType model mem offset % 4)
            (decodedSamples model mem offset) + U32 -
          (diveFormat model (decodedType model mem offset % 4)).headersize =
          U32 + (computeNbytes model mem offset (decodedType model mem offset % 4)
            (decodedSamples model mem offset) -
          (diveFormat model (decodedType model mem offset % 4)).headersize) := by
        omega
      rw [heq, Nat.add_mod_left, Nat.mod_eq_of_lt (by omega)]
    rcases List.mem_cons.mp hpr with rfl | hpr
    · dsimp only
      omega
    · rcases List.mem_cons.mp hpr with rfl | hpr
      · dsimp only
        omega
      · rcases List.mem_cons.mp hpr with rfl | hpr
        · dsimp only
          rw [hmod]
          omega
        · rcases List.mem_cons.mp hpr with rfl | hpr
          · dsimp only
            omega
          · rcases List.mem_cons.mp hpr with rfl | hpr
            · dsimp only
              rw [h4]
              omega
            · rcases List.mem_singleton.mp hpr with rfl
              dsimp only
              rw [h4]
              omega

/-- Counterexample for C10 as stated: a SMARTAPNEA record whose
`divetime * samplerate * 2` term wraps to make the computed length 0 is
reconstructed at the very first reachable state with no progress
(the continuation offset equals the current offset), its computed
length is below `4 + headersize`, and the 4-byte stored-length re-read
extends past the end of the scratch buffer (ring length 221184). -/
theorem mares_C10_counterexample :
    iterCore SMARTAPNEA memD 221184 = .ok ⟨221184, 0, 221168⟩ 221184 ∧
    (221184, 4) ∈ iterReads SMARTAPNEA memD 221184 ∧
    ¬((221184 : Nat) + 4 ≤ 221184) ∧
    ¬((221184 : Nat) < 221184) ∧
    computeNbytes SMARTAPNEA memD 221184 0 0 <
      4 + (diveFormat SMARTAPNEA 0).headersize :=
  ⟨by decide, by decide, by decide, by decide, by decide⟩

/-- Witness for C10 (amended) at the initial state of a Matrix walk on
all-zero memory: every scratch access of the first iteration lies
within the ring-length buffer. -/
theorem mares_C10_witness :
    (iterReads MATRIX memZero 212992).all (fun pr => pr.1 + pr.2 ≤ 212992) = true :=
  (mares_C10_walk_safety MATRIX fpZero memZero cbTrue 212992 212992 []
    (fun off mode ns hns => by
      simp only [specRecordLength, diveFormat, U32, MATRIX, ICONHDNET, QUADAIR,
        SMARTAIR, SMARTAPNEA, SMART]
      norm_num
      omega)
    Reaches.start).2.1 (by decide)

end MaresIconHD
